import Mathlib

/-!
# SpeedTemplates: rendering of the section tree

A shallow embedding of `speedtemplates/SpeedTemplates.h` (namespace `SpeedTemplates`):
the `Value` classes, the `std::map< std::string, Value * >` that rendering threads
through the tree, and the `render` methods of `Root`, `ForSection`, `ForEachSection`
and `Code`.

Conventions of the embedding:

* a C++ call either returns, throws, or has undefined behaviour (here: a member access
  through a null pointer); the three are kept apart in `Outcome` and `RenderResult`;
* `valueByName` is passed to `render` by reference, so `render` returns the map it leaves
  behind, also when it throws;
* text written to `std::cout` (the trace lines of `ForEachSection::render`) is not part of
  the rendered text and is not modelled;
* `int` loop bounds are `Int`: the counter of `ForSection::render` only takes values
  between `loopStart` and `loopEnd`, so no `int` arithmetic overflows.
-/

namespace SpeedTemplates

/-- The exceptions of the header: `render_error` (a subclass of `std::runtime_error`) and a
plain `std::runtime_error`, each with its `what` string. -/
inductive Exn where
  | render_error (what : String)
  | runtime_error (what : String)
  deriving DecidableEq, Repr

/-- The payload of a C++ `float`, kept as its IEEE-754 binary32 bit pattern. -/
structure CFloat where
  bits : Nat
  deriving DecidableEq, Repr

/-- The concrete subclasses of `Value`. `VectorStringValue` refers to a vector of the
caller; the embedding holds its contents. -/
inductive Value where
  | IntValue (value : Int)
  | FloatValue (value : CFloat)
  | StringValue (value : String)
  | VectorStringValue (values : List String)
  deriving DecidableEq, Repr

/-- What a call that does not touch the map does: return a string, throw, or run into
undefined behaviour. -/
inductive Outcome where
  | ok (text : String)
  | thrown (e : Exn)
  | undefined
  deriving DecidableEq, Repr

/-- Modelled from the spec: `easycl::toString( int )` of `util/stringhelper.h`, which is not
part of the sources at hand; the canonical decimal form of the integer, without separators. -/
def toStringInt (value : Int) : String :=
  toString value

/-- `Value::render` of the four subclasses. `easycl::toString( float )` is not part of the
sources at hand and is a parameter. -/
def Value.render (toStringFloat : CFloat → String) : Value → Outcome
  | .IntValue value => .ok (toStringInt value)
  | .FloatValue value => .ok (toStringFloat value)
  | .StringValue value => .ok value
  | .VectorStringValue _ => .thrown (.runtime_error "Not implemented")

/-- The map `std::map< std::string, Value * >`, as the list of its entries. The operations
below keep the keys distinct; every stored pointer is non-null. -/
abbrev Env := List (String × Value)

/-- `valueByName.find( name )`: the value stored under `name`, `none` for `end()`. -/
def Env.find : Env → String → Option Value
  | [], _ => none
  | (k, v) :: rest, name => if k = name then some v else Env.find rest name

/-- `valueByName[name] = value`: overwrite the entry of `name`, or add one. -/
def Env.set : Env → String → Value → Env
  | [], name, value => [(name, value)]
  | (k, v) :: rest, name, value =>
    if k = name then (k, value) :: rest else (k, v) :: Env.set rest name value

/-- `valueByName.erase( name )`. -/
def Env.erase : Env → String → Env
  | [], _ => []
  | (k, v) :: rest, name => if k = name then rest else (k, v) :: Env.erase rest name

/-- What `render( valueByName )` does: return the text, throw, or run into undefined
behaviour. The map is a reference parameter, so the first two carry the map left behind. -/
inductive RenderResult where
  | ok (text : String) (env : Env)
  | thrown (e : Exn) (env : Env)
  | undefined
  deriving DecidableEq, Repr

/-- The section classes that can be instantiated (`Container` leaves `render` pure virtual).
Every class inherits the child vector `sections`; `Code::render` does not read it, and the
source positions (`startPos`, `endPos`) are read by no `render`, so they are left out. -/
inductive ControlSection where
  | Root (sections : List ControlSection)
  | ForSection (varName : String) (loopStart loopEnd : Int) (sections : List ControlSection)
  | ForEachSection (varName valuesVarName : String) (sections : List ControlSection)
  | Code (templateCode : String)

/-- The loop `for( int i = loopStart; i < loopEnd; i++ )` of `ForSection::render`. Neither
`i` nor `loopEnd` is written in the loop body, so the test `i < loopEnd` holds for exactly the
first `(loopEnd - loopStart).toNat` values of `i` (none when `loopStart >= loopEnd`); that
number of iterations still to run is the recursion argument. `body` is the inner loop over
`sections`, which appends to `result`; the two statements after it, `delete
valueByName[varName]` and `valueByName.erase( varName )`, remove the entry. An exception
leaves the loop before they run. -/
def forLoop (body : Env → String → RenderResult) (varName : String) :
    Nat → Int → Env → String → RenderResult
  | 0, _, env, result => .ok result env
  | n + 1, i, env, result =>
    match body (env.set varName (.IntValue i)) result with
    | .ok result1 env1 => forLoop body varName n (i + 1) (env1.erase varName) result1
    | .thrown e env1 => .thrown e env1
    | .undefined => .undefined

/-- The loop `for( int i = 0; i < (int)values.size(); i++ )` of `ForEachSection::render`
over the copied vector `values`. -/
def forEachLoop (body : Env → String → RenderResult) (varName : String) :
    List String → Env → String → RenderResult
  | [], env, result => .ok result env
  | thisValue :: rest, env, result =>
    match body (env.set varName (.StringValue thisValue)) result with
    | .ok result1 env1 => forEachLoop body varName rest (env1.erase varName) result1
    | .thrown e env1 => .thrown e env1
    | .undefined => .undefined

mutual

/-- The virtual `render( valueByName )`. `Template::doSubstitutions` is declared in the header
but defined elsewhere, so it is the parameter `subst`; it takes the map by value. -/
def render (subst : String → Env → Outcome) : ControlSection → Env → RenderResult
  | .Root sections, env => renderSections subst sections env ""
  | .ForSection varName loopStart loopEnd sections, env =>
    if (env.find varName).isSome then
      .thrown (.render_error ("variable " ++ varName ++ " already exists in this context")) env
    else
      forLoop (fun env1 result => renderSections subst sections env1 result) varName
        (loopEnd - loopStart).toNat loopStart env ""
  | .ForEachSection varName valuesVarName sections, env =>
    if (env.find varName).isSome then
      .thrown (.render_error ("variable " ++ varName ++ " already exists in this context")) env
    else
      match env.find valuesVarName with
      | some (.VectorStringValue values) =>
        forEachLoop (fun env1 result => renderSections subst sections env1 result) varName
          values env ""
      | some _ => .undefined
      | none => .undefined
  | .Code templateCode, env =>
    match subst templateCode env with
    | .ok processed => .ok processed env
    | .thrown e => .thrown e env
    | .undefined => .undefined

/-- The loop `for( int j = 0; j < (int)sections.size(); j++ ) result += sections[j]->render( valueByName )`
shared by `Root`, `ForSection` and `ForEachSection`. -/
def renderSections (subst : String → Env → Outcome) :
    List ControlSection → Env → String → RenderResult
  | [], env, result => .ok result env
  | s :: rest, env, result =>
    match render subst s env with
    | .ok text env1 => renderSections subst rest env1 (result ++ text)
    | .thrown e env1 => .thrown e env1
    | .undefined => .undefined

end

/-- Blanks around an identifier are dropped (spaces, tabs, line breaks). -/
def trimChars (cs : List Char) : List Char :=
  ((cs.dropWhile Char.isWhitespace).reverse.dropWhile Char.isWhitespace).reverse

/-- The scan of `doSubstitutions`. `pending` is `none` in literal text and holds the
characters read since the opening marker inside one; `out` is the text produced so far. -/
def substScan (toStringFloat : CFloat → String) (env : Env) :
    List Char → Option (List Char) → List Char → Outcome
  | [], none, out => .ok (String.mk out)
  | [], some _, _ => .thrown (.render_error "unterminated substitution marker")
  | '{' :: '{' :: rest, none, out => substScan toStringFloat env rest (some []) out
  | c :: rest, none, out => substScan toStringFloat env rest none (out ++ [c])
  | '}' :: '}' :: rest, some name, out =>
    match env.find (String.mk (trimChars name)) with
    | none => .thrown (.render_error ("undefined variable " ++ String.mk (trimChars name)))
    | some value =>
      match value.render toStringFloat with
      | .ok text => substScan toStringFloat env rest none (out ++ text.data)
      | .thrown e => .thrown e
      | .undefined => .undefined
  | c :: rest, some name, out => substScan toStringFloat env rest (some (name ++ [c])) out

/-- Modelled from the spec: `Template::doSubstitutions`, declared in the header and defined
in a file that is not part of the sources at hand. Every `{{identifier}}` marker is replaced
by the rendering of the value bound to the identifier, blanks around the identifier dropped;
an unbound identifier and an opening marker without a closing one are errors (the spec does
not fix their messages); all other text is copied. -/
def doSubstitutions (toStringFloat : CFloat → String) (sourceCode : String) (env : Env) :
    Outcome :=
  substScan toStringFloat env sourceCode.data none []

/-! ## Observations on a render result -/

/-- The call returned (it neither threw nor ran into undefined behaviour). -/
def RenderResult.succeeds : RenderResult → Bool
  | .ok _ _ => true
  | _ => false

/-- The text a successful call returned; the empty string when the call did not return. -/
def RenderResult.text : RenderResult → String
  | .ok text _ => text
  | _ => ""

/-- The integers `loopStart, loopStart + 1, ..., loopEnd - 1`, ascending. -/
def intRange (loopStart loopEnd : Int) : List Int :=
  (List.range (loopEnd - loopStart).toNat).map fun (k : Nat) => loopStart + (k : Int)

/-- The loop variable of a `ForSection` or `ForEachSection`. -/
def ControlSection.loopVarName : ControlSection → Option String
  | .ForSection varName _ _ _ => some varName
  | .ForEachSection varName _ _ => some varName
  | _ => none

/-- A result with `result` put in front of the returned text; a failed call is left as it
is. -/
def RenderResult.prepend (result : String) : RenderResult → RenderResult
  | .ok text env => .ok (result ++ text) env
  | .thrown e env => .thrown e env
  | .undefined => .undefined

/-- The characters `a`, `b` occur next to each other, in this order. -/
def containsPair (a b : Char) : List Char → Bool
  | [] => false
  | c :: rest => (c == a && rest.head? == some b) || containsPair a b rest

/-- The text opens a control block somewhere: it contains `{%`. -/
def hasControlMarker (sourceCode : String) : Bool :=
  containsPair '{' '%' sourceCode.data

/-- The text opens a substitution marker somewhere: it contains `{{`. -/
def hasSubstitutionMarker (sourceCode : String) : Bool :=
  containsPair '{' '{' sourceCode.data

/-- The members of `Template` that rendering reads; `root` is built from `sourceCode`. -/
structure Template where
  sourceCode : String
  valueByName : Env

/-- Modelled from the spec: `Template::render` with the parser `Template::eatSection`, both
declared in the header and defined in a file that is not part of the sources at hand. The
source is parsed and the root is rendered against the map of the template. Text without a
control marker becomes one `Code` node that holds the whole text; the parsing of control
blocks, whose details the spec leaves open, is the parameter `eatControl`, and a parse error
aborts the render. -/
def Template.render (eatControl : String → Except Exn ControlSection)
    (toStringFloat : CFloat → String) (t : Template) : RenderResult :=
  if hasControlMarker t.sourceCode then
    match eatControl t.sourceCode with
    | .error e => .thrown e t.valueByName
    | .ok root => SpeedTemplates.render (doSubstitutions toStringFloat) root t.valueByName
  else
    SpeedTemplates.render (doSubstitutions toStringFloat) (.Root [.Code t.sourceCode])
      t.valueByName

/-! ## The map -/

theorem Env.erase_set (env : Env) (name : String) (value : Value)
    (h : env.find name = none) : (env.set name value).erase name = env := by
  induction env with
  | nil => simp [Env.set, Env.erase]
  | cons p rest ih =>
    obtain ⟨k, v⟩ := p
    by_cases hk : k = name
    · simp [Env.find, hk] at h
    · simp only [Env.find, hk, if_false] at h
      simp [Env.set, Env.erase, hk, ih h]

theorem Env.find_set_self (env : Env) (name : String) (value : Value) :
    (env.set name value).find name = some value := by
  induction env with
  | nil => simp [Env.set, Env.find]
  | cons p rest ih =>
    obtain ⟨k, v⟩ := p
    by_cases hk : k = name
    · simp [Env.set, Env.find, hk]
    · simp [Env.set, Env.find, hk, ih]

theorem Env.find_set_other (env : Env) (name other : String) (value : Value)
    (h : other ≠ name) : (env.set name value).find other = env.find other := by
  induction env with
  | nil => simp [Env.set, Env.find, h.symm]
  | cons p rest ih =>
    obtain ⟨k, v⟩ := p
    by_cases hk : k = name
    · subst hk
      simp [Env.set, Env.find, h.symm]
    · by_cases hko : k = other
      · subst hko
        simp [Env.set, Env.find, hk]
      · simp [Env.set, Env.find, hk, hko, ih]

/-! ## Strings -/

theorem foldl_append_eq (acc : String) (l : List String) :
    l.foldl (fun r s => r ++ s) acc = acc ++ l.foldl (fun r s => r ++ s) "" := by
  induction l generalizing acc with
  | nil => simp
  | cons s rest ih =>
    simp only [List.foldl_cons]
    rw [ih (acc ++ s), ih ("" ++ s)]
    simp [String.append_assoc]

theorem join_cons (s : String) (l : List String) :
    String.join (s :: l) = s ++ String.join l := by
  simp only [String.join, List.foldl_cons]
  rw [foldl_append_eq]
  simp

theorem join_nil : String.join [] = "" := rfl

/-! ## A successful render leaves the map as it found it -/

theorem forLoop_ok_env (body : Env → String → RenderResult) (varName : String)
    (hbody : ∀ env result text env1, body env result = .ok text env1 → env1 = env) :
    ∀ (n : Nat) (i : Int) (env : Env) (result text : String) (env1 : Env),
      env.find varName = none →
      forLoop body varName n i env result = .ok text env1 → env1 = env := by
  intro n
  induction n with
  | zero =>
    intro i env result text env1 _ h
    simp only [forLoop] at h
    injection h with _ h2
    exact h2.symm
  | succ n ih =>
    intro i env result text env1 hfree h
    simp only [forLoop] at h
    cases hb : body (env.set varName (.IntValue i)) result with
    | ok r1 e1 =>
      rw [hb] at h
      have he : e1 = env.set varName (.IntValue i) := hbody _ _ _ _ hb
      subst he
      simp only [Env.erase_set env varName _ hfree] at h
      exact ih _ _ _ _ _ hfree h
    | thrown e e1 => rw [hb] at h; cases h
    | undefined => rw [hb] at h; cases h

theorem forEachLoop_ok_env (body : Env → String → RenderResult) (varName : String)
    (hbody : ∀ env result text env1, body env result = .ok text env1 → env1 = env) :
    ∀ (values : List String) (env : Env) (result text : String) (env1 : Env),
      env.find varName = none →
      forEachLoop body varName values env result = .ok text env1 → env1 = env := by
  intro values
  induction values with
  | nil =>
    intro env result text env1 _ h
    simp only [forEachLoop] at h
    injection h with _ h2
    exact h2.symm
  | cons thisValue rest ih =>
    intro env result text env1 hfree h
    simp only [forEachLoop] at h
    cases hb : body (env.set varName (.StringValue thisValue)) result with
    | ok r1 e1 =>
      rw [hb] at h
      have he : e1 = env.set varName (.StringValue thisValue) := hbody _ _ _ _ hb
      subst he
      simp only [Env.erase_set env varName _ hfree] at h
      exact ih _ _ _ _ hfree h
    | thrown e e1 => rw [hb] at h; cases h
    | undefined => rw [hb] at h; cases h

mutual

theorem render_ok_env (subst : String → Env → Outcome) :
    ∀ (s : ControlSection) (env : Env) (text : String) (env1 : Env),
      render subst s env = .ok text env1 → env1 = env
  | .Root sections, env, text, env1, h => by
    rw [render] at h
    exact renderSections_ok_env subst sections env "" text env1 h
  | .ForSection varName loopStart loopEnd sections, env, text, env1, h => by
    rw [render] at h
    split at h
    · cases h
    · rename_i hfree
      have hnone : env.find varName = none := by
        cases hf : env.find varName with
        | none => rfl
        | some v => simp [hf] at hfree
      exact forLoop_ok_env _ varName
        (fun e r t e1 hb => renderSections_ok_env subst sections e r t e1 hb)
        _ _ _ _ _ _ hnone h
  | .ForEachSection varName valuesVarName sections, env, text, env1, h => by
    rw [render] at h
    split at h
    · cases h
    · rename_i hfree
      have hnone : env.find varName = none := by
        cases hf : env.find varName with
        | none => rfl
        | some v => simp [hf] at hfree
      split at h
      · exact forEachLoop_ok_env _ varName
          (fun e r t e1 hb => renderSections_ok_env subst sections e r t e1 hb)
          _ _ _ _ _ hnone h
      · cases h
      · cases h
  | .Code templateCode, env, text, env1, h => by
    rw [render] at h
    split at h
    · injection h with _ h2
      exact h2.symm
    · cases h
    · cases h

theorem renderSections_ok_env (subst : String → Env → Outcome) :
    ∀ (sections : List ControlSection) (env : Env) (result text : String) (env1 : Env),
      renderSections subst sections env result = .ok text env1 → env1 = env
  | [], env, result, text, env1, h => by
    rw [renderSections] at h
    injection h with _ h2
    exact h2.symm
  | s :: rest, env, result, text, env1, h => by
    rw [renderSections] at h
    cases hs : render subst s env with
    | ok t e1 =>
      rw [hs] at h
      have he : e1 = env := render_ok_env subst s env t e1 hs
      rw [he] at h
      exact renderSections_ok_env subst rest env _ text env1 h
    | thrown e e1 => rw [hs] at h; cases h
    | undefined => rw [hs] at h; cases h

end

/-! ## The text of a successful render -/

theorem renderSections_concat (subst : String → Env → Outcome) (env : Env) :
    ∀ (sections : List ControlSection) (result : String),
      (∀ c ∈ sections, (render subst c env).succeeds = true) →
      renderSections subst sections env result =
        .ok (result ++ String.join (sections.map fun c => (render subst c env).text)) env := by
  intro sections
  induction sections with
  | nil =>
    intro result _
    simp [renderSections, join_nil]
  | cons s rest ih =>
    intro result hok
    have hs := hok s (List.mem_cons_self s rest)
    have hrest : ∀ c ∈ rest, (render subst c env).succeeds = true :=
      fun c hc => hok c (List.mem_cons_of_mem s hc)
    rw [renderSections]
    cases hr : render subst s env with
    | ok t e1 =>
      have he : e1 = env := render_ok_env subst s env t e1 hr
      subst he
      have ht : (RenderResult.ok t e1).text = t := rfl
      simp only [List.map_cons, join_cons]
      rw [hr, ht, ih (result ++ t) hrest, String.append_assoc]
    | thrown e e1 => rw [hr] at hs; cases hs
    | undefined => rw [hr] at hs; cases hs

theorem forLoop_concat (body : Env → String → RenderResult) (varName : String)
    (g : Int → String) :
    ∀ (n : Nat) (i : Int) (env : Env) (result : String),
      env.find varName = none →
      (∀ k : Nat, k < n → ∀ r,
        body (env.set varName (.IntValue (i + (k : Int)))) r =
          .ok (r ++ g (i + (k : Int))) (env.set varName (.IntValue (i + (k : Int))))) →
      forLoop body varName n i env result =
        .ok (result ++ String.join ((List.range n).map fun (k : Nat) => g (i + (k : Int)))) env := by
  intro n
  induction n with
  | zero =>
    intro i env result _ _
    simp [forLoop, join_nil]
  | succ n ih =>
    intro i env result hfree hbody
    have h0 := hbody 0 (Nat.succ_pos n) result
    simp only [Nat.cast_zero, add_zero] at h0
    have hstep : ∀ k : Nat, k < n → ∀ r,
        body (env.set varName (.IntValue (i + 1 + (k : Int)))) r =
          .ok (r ++ g (i + 1 + (k : Int)))
            (env.set varName (.IntValue (i + 1 + (k : Int)))) := by
      intro k hk r
      have := hbody (k + 1) (Nat.succ_lt_succ hk) r
      have hc : i + ((k + 1 : Nat) : Int) = i + 1 + (k : Int) := by push_cast; ring
      rw [hc] at this
      exact this
    simp only [forLoop, h0, Env.erase_set env varName _ hfree]
    rw [ih (i + 1) env _ hfree hstep, List.range_succ_eq_map]
    simp only [List.map_cons, List.map_map, join_cons, Nat.cast_zero, add_zero,
      String.append_assoc]
    congr 4
    apply List.map_congr_left
    intro k _
    simp only [Function.comp_apply]
    congr 1
    push_cast
    ring

theorem forEachLoop_concat (body : Env → String → RenderResult) (varName : String)
    (g : String → String) :
    ∀ (values : List String) (env : Env) (result : String),
      env.find varName = none →
      (∀ e ∈ values, ∀ r,
        body (env.set varName (.StringValue e)) r =
          .ok (r ++ g e) (env.set varName (.StringValue e))) →
      forEachLoop body varName values env result =
        .ok (result ++ String.join (values.map g)) env := by
  intro values
  induction values with
  | nil =>
    intro env result _ _
    simp [forEachLoop, join_nil]
  | cons thisValue rest ih =>
    intro env result hfree hbody
    have h0 := hbody thisValue (List.mem_cons_self _ _) result
    have hrest : ∀ e ∈ rest, ∀ r,
        body (env.set varName (.StringValue e)) r =
          .ok (r ++ g e) (env.set varName (.StringValue e)) :=
      fun e he r => hbody e (List.mem_cons_of_mem _ he) r
    simp only [forEachLoop, h0, Env.erase_set env varName _ hfree]
    rw [ih env _ hfree hrest]
    simp only [List.map_cons, join_cons, String.append_assoc]

theorem find_none_of_not_isSome (env : Env) (name : String)
    (h : ¬ (env.find name).isSome = true) : env.find name = none := by
  cases hf : env.find name with
  | none => rfl
  | some v => simp [hf] at h

theorem mem_intRange (loopStart loopEnd : Int) (k : Nat)
    (hk : k < (loopEnd - loopStart).toNat) :
    loopStart ≤ loopStart + (k : Int) ∧ loopStart + (k : Int) < loopEnd := by
  omega

/-! ## Failure inside a child list -/

theorem loopVar_bound_throws (subst : String → Env → Outcome) (s : ControlSection)
    (varName : String) (env : Env) (hs : s.loopVarName = some varName)
    (hbound : (env.find varName).isSome = true) :
    render subst s env =
      .thrown (.render_error ("variable " ++ varName ++ " already exists in this context"))
        env := by
  cases s with
  | Root sections => cases hs
  | Code templateCode => cases hs
  | ForSection v a b sections =>
    injection hs with hs
    subst hs
    rw [render]
    simp [hbound]
  | ForEachSection v vals sections =>
    injection hs with hs
    subst hs
    rw [render]
    simp [hbound]

theorem renderSections_prefix_thrown (subst : String → Env → Outcome) (env : Env)
    (c : ControlSection) (post : List ControlSection) (e : Exn) (env1 : Env)
    (hc : render subst c env = .thrown e env1) :
    ∀ (pre : List ControlSection) (result : String),
      (∀ p ∈ pre, (render subst p env).succeeds = true) →
      renderSections subst (pre ++ c :: post) env result = .thrown e env1 := by
  intro pre
  induction pre with
  | nil =>
    intro result _
    simp only [List.nil_append, renderSections, hc]
  | cons p rest ih =>
    intro result hok
    have hp := hok p (List.mem_cons_self p rest)
    have hrest : ∀ q ∈ rest, (render subst q env).succeeds = true :=
      fun q hq => hok q (List.mem_cons_of_mem p hq)
    rw [List.cons_append, renderSections]
    cases hr : render subst p env with
    | ok t e1 =>
      have he : e1 = env := render_ok_env subst p env t e1 hr
      subst he
      exact ih (result ++ t) hrest
    | thrown e2 e1 => rw [hr] at hp; cases hp
    | undefined => rw [hr] at hp; cases hp

/-! ## Child lists and accumulated text -/

theorem join_append (l1 l2 : List String) :
    String.join (l1 ++ l2) = String.join l1 ++ String.join l2 := by
  induction l1 with
  | nil => simp [join_nil]
  | cons s rest ih => simp only [List.cons_append, join_cons, ih, String.append_assoc]

theorem prepend_prepend (r1 r2 : String) (res : RenderResult) :
    (res.prepend r2).prepend r1 = res.prepend (r1 ++ r2) := by
  cases res <;> simp [RenderResult.prepend, String.append_assoc]

theorem prepend_empty (res : RenderResult) : res.prepend "" = res := by
  cases res <;> simp [RenderResult.prepend]

theorem renderSections_acc (subst : String → Env → Outcome) :
    ∀ (sections : List ControlSection) (env : Env) (result : String),
      renderSections subst sections env result =
        (renderSections subst sections env "").prepend result := by
  intro sections
  induction sections with
  | nil =>
    intro env result
    simp [renderSections, RenderResult.prepend]
  | cons s rest ih =>
    intro env result
    rw [renderSections, renderSections]
    cases hr : render subst s env with
    | ok t e1 =>
      simp only []
      rw [ih e1 (result ++ t), ih e1 ("" ++ t), prepend_prepend]
      simp
    | thrown e e1 => simp [RenderResult.prepend]
    | undefined => simp [RenderResult.prepend]

theorem renderSections_first_failure (subst : String → Env → Outcome) (env : Env)
    (c : ControlSection) (post : List ControlSection)
    (hc : (render subst c env).succeeds = false) :
    ∀ (pre : List ControlSection) (result : String),
      (∀ p ∈ pre, (render subst p env).succeeds = true) →
      renderSections subst (pre ++ c :: post) env result = render subst c env := by
  intro pre
  induction pre with
  | nil =>
    intro result _
    rw [List.nil_append, renderSections]
    cases hr : render subst c env with
    | ok t e1 => rw [hr] at hc; cases hc
    | thrown e e1 => rfl
    | undefined => rfl
  | cons p rest ih =>
    intro result hok
    have hp := hok p (List.mem_cons_self p rest)
    have hrest : ∀ q ∈ rest, (render subst q env).succeeds = true :=
      fun q hq => hok q (List.mem_cons_of_mem p hq)
    rw [List.cons_append, renderSections]
    cases hr : render subst p env with
    | ok t e1 =>
      have he : e1 = env := render_ok_env subst p env t e1 hr
      subst he
      exact ih (result ++ t) hrest
    | thrown e2 e1 => rw [hr] at hp; cases hp
    | undefined => rw [hr] at hp; cases hp

/-! ## Text without a substitution marker -/

theorem substScan_no_marker (toStringFloat : CFloat → String) (env : Env) :
    ∀ (cs out : List Char), containsPair '{' '{' cs = false →
      substScan toStringFloat env cs none out = .ok (String.mk (out ++ cs)) := by
  intro cs
  induction cs with
  | nil =>
    intro out _
    simp [substScan]
  | cons c rest ih =>
    intro out h
    simp only [containsPair, Bool.or_eq_false_iff, Bool.and_eq_false_imp] at h
    obtain ⟨h1, h2⟩ := h
    have hstep : substScan toStringFloat env (c :: rest) none out =
        substScan toStringFloat env rest none (out ++ [c]) := by
      cases rest with
      | nil => simp [substScan]
      | cons d rest1 =>
        by_cases hc : c = '{'
        · subst hc
          have hd : d ≠ '{' := by
            intro hd
            subst hd
            simp at h1
          rw [substScan]
          intro rest2 _ htail
          injection htail with hd2 _
          exact hd hd2
        · rw [substScan]
          intro rest2 hc2 _
          exact hc hc2
    rw [hstep, ih (out ++ [c]) h2]
    simp

/-! ## The first failure inside a loop -/

theorem forLoop_first_failure (body : Env → String → RenderResult) (varName : String)
    (failed : RenderResult) (hfailed : failed.succeeds = false) :
    ∀ (j n : Nat) (i : Int) (env : Env) (result : String),
      env.find varName = none → j < n →
      (∀ k : Nat, k < j → ∀ r, ∃ t,
        body (env.set varName (.IntValue (i + (k : Int)))) r =
          .ok t (env.set varName (.IntValue (i + (k : Int))))) →
      (∀ r, body (env.set varName (.IntValue (i + (j : Int)))) r = failed) →
      forLoop body varName n i env result = failed := by
  intro j
  induction j with
  | zero =>
    intro n i env result _ hn _ hfail
    obtain ⟨m, rfl⟩ : ∃ m, n = m + 1 := ⟨n - 1, by omega⟩
    have h0 := hfail result
    simp only [Nat.cast_zero, add_zero] at h0
    rw [forLoop, h0]
    cases failed with
    | ok t e1 => cases hfailed
    | thrown e e1 => rfl
    | undefined => rfl
  | succ j ih =>
    intro n i env result hfree hn hok hfail
    obtain ⟨m, rfl⟩ : ∃ m, n = m + 1 := ⟨n - 1, by omega⟩
    obtain ⟨t, h0⟩ := hok 0 (Nat.succ_pos j) result
    simp only [Nat.cast_zero, add_zero] at h0
    rw [forLoop, h0]
    simp only [Env.erase_set env varName _ hfree]
    apply ih m (i + 1) env t hfree (by omega)
    · intro k hk r
      have hc : i + ((k + 1 : Nat) : Int) = i + 1 + (k : Int) := by push_cast; ring
      have := hok (k + 1) (Nat.succ_lt_succ hk) r
      rw [hc] at this
      exact this
    · intro r
      have hc : i + ((j + 1 : Nat) : Int) = i + 1 + (j : Int) := by push_cast; ring
      have := hfail r
      rw [hc] at this
      exact this

theorem forEachLoop_first_failure (body : Env → String → RenderResult) (varName : String)
    (failed : RenderResult) (hfailed : failed.succeeds = false) (thisValue : String)
    (later : List String) :
    ∀ (earlier : List String) (env : Env) (result : String),
      env.find varName = none →
      (∀ v ∈ earlier, ∀ r, ∃ t,
        body (env.set varName (.StringValue v)) r = .ok t (env.set varName (.StringValue v))) →
      (∀ r, body (env.set varName (.StringValue thisValue)) r = failed) →
      forEachLoop body varName (earlier ++ thisValue :: later) env result = failed := by
  intro earlier
  induction earlier with
  | nil =>
    intro env result _ _ hfail
    rw [List.nil_append, forEachLoop, hfail result]
    cases failed with
    | ok t e1 => cases hfailed
    | thrown e e1 => rfl
    | undefined => rfl
  | cons v rest ih =>
    intro env result hfree hok hfail
    obtain ⟨t, h0⟩ := hok v (List.mem_cons_self v rest) result
    rw [List.cons_append, forEachLoop, h0]
    simp only [Env.erase_set env varName _ hfree]
    exact ih env t hfree (fun w hw r => hok w (List.mem_cons_of_mem v hw) r) hfail

theorem forSection_first_failure (subst : String → Env → Outcome) (varName : String)
    (loopStart loopEnd i : Int) (pre post : List ControlSection) (c : ControlSection)
    (env : Env)
    (hfree : env.find varName = none) (hlo : loopStart ≤ i) (hhi : i < loopEnd)
    (hearlier : ∀ k : Int, loopStart ≤ k → k < i → ∀ s ∈ pre ++ c :: post,
      (render subst s (env.set varName (.IntValue k))).succeeds = true)
    (hpre : ∀ p ∈ pre, (render subst p (env.set varName (.IntValue i))).succeeds = true)
    (hc : (render subst c (env.set varName (.IntValue i))).succeeds = false) :
    render subst (.ForSection varName loopStart loopEnd (pre ++ c :: post)) env =
      render subst c (env.set varName (.IntValue i)) := by
  rw [render]
  simp only [hfree, Option.isSome_none, Bool.false_eq_true, if_false]
  have hi : loopStart + (((i - loopStart).toNat : Nat) : Int) = i := by omega
  apply forLoop_first_failure _ varName _ hc (i - loopStart).toNat _ loopStart env ""
    hfree (by omega)
  · intro k hk r
    exact ⟨_, renderSections_concat subst _ (pre ++ c :: post) r
      (hearlier _ (by omega) (by omega))⟩
  · intro r
    rw [hi]
    exact renderSections_first_failure subst _ c post hc pre r hpre

theorem forEachSection_first_failure (subst : String → Env → Outcome)
    (varName valuesVarName : String) (earlier later : List String) (thisValue : String)
    (pre post : List ControlSection) (c : ControlSection) (env : Env)
    (hfree : env.find varName = none)
    (hvalues : env.find valuesVarName =
      some (.VectorStringValue (earlier ++ thisValue :: later)))
    (hearlier : ∀ v ∈ earlier, ∀ s ∈ pre ++ c :: post,
      (render subst s (env.set varName (.StringValue v))).succeeds = true)
    (hpre : ∀ p ∈ pre,
      (render subst p (env.set varName (.StringValue thisValue))).succeeds = true)
    (hc : (render subst c (env.set varName (.StringValue thisValue))).succeeds = false) :
    render subst (.ForEachSection varName valuesVarName (pre ++ c :: post)) env =
      render subst c (env.set varName (.StringValue thisValue)) := by
  rw [render]
  simp only [hfree, Option.isSome_none, Bool.false_eq_true, if_false, hvalues]
  apply forEachLoop_first_failure _ varName _ hc thisValue later earlier env "" hfree
  · intro v hv r
    exact ⟨_, renderSections_concat subst _ (pre ++ c :: post) r (hearlier v hv)⟩
  · intro r
    exact renderSections_first_failure subst _ c post hc pre r hpre

/-! ## Bindings that survive a throw -/

theorem forLoop_thrown_keeps (body : Env → String → RenderResult) (varName : String)
    (hok : ∀ env result text env1, body env result = .ok text env1 → env1 = env)
    (hthrown : ∀ env result e env1, body env result = .thrown e env1 →
      ∀ name value, env.find name = some value → env1.find name = some value) :
    ∀ (n : Nat) (i : Int) (env : Env) (result : String) (e : Exn) (env1 : Env),
      env.find varName = none →
      forLoop body varName n i env result = .thrown e env1 →
      ∀ name value, env.find name = some value → env1.find name = some value := by
  intro n
  induction n with
  | zero =>
    intro i env result e env1 _ h
    simp only [forLoop] at h
    cases h
  | succ n ih =>
    intro i env result e env1 hfree h name value hname
    simp only [forLoop] at h
    cases hb : body (env.set varName (.IntValue i)) result with
    | ok r1 e1 =>
      rw [hb] at h
      have he : e1 = env.set varName (.IntValue i) := hok _ _ _ _ hb
      subst he
      simp only [Env.erase_set env varName _ hfree] at h
      exact ih _ _ _ _ _ hfree h name value hname
    | thrown e2 e1 =>
      rw [hb] at h
      simp only [RenderResult.thrown.injEq] at h
      obtain ⟨_, h2⟩ := h
      subst h2
      have hne : name ≠ varName := by
        intro heq
        rw [heq, hfree] at hname
        cases hname
      apply hthrown _ _ _ _ hb name value
      rw [Env.find_set_other env varName name _ hne]
      exact hname
    | undefined => rw [hb] at h; cases h

theorem forEachLoop_thrown_keeps (body : Env → String → RenderResult) (varName : String)
    (hok : ∀ env result text env1, body env result = .ok text env1 → env1 = env)
    (hthrown : ∀ env result e env1, body env result = .thrown e env1 →
      ∀ name value, env.find name = some value → env1.find name = some value) :
    ∀ (values : List String) (env : Env) (result : String) (e : Exn) (env1 : Env),
      env.find varName = none →
      forEachLoop body varName values env result = .thrown e env1 →
      ∀ name value, env.find name = some value → env1.find name = some value := by
  intro values
  induction values with
  | nil =>
    intro env result e env1 _ h
    simp only [forEachLoop] at h
    cases h
  | cons thisValue rest ih =>
    intro env result e env1 hfree h name value hname
    simp only [forEachLoop] at h
    cases hb : body (env.set varName (.StringValue thisValue)) result with
    | ok r1 e1 =>
      rw [hb] at h
      have he : e1 = env.set varName (.StringValue thisValue) := hok _ _ _ _ hb
      subst he
      simp only [Env.erase_set env varName _ hfree] at h
      exact ih _ _ _ _ hfree h name value hname
    | thrown e2 e1 =>
      rw [hb] at h
      simp only [RenderResult.thrown.injEq] at h
      obtain ⟨_, h2⟩ := h
      subst h2
      have hne : name ≠ varName := by
        intro heq
        rw [heq, hfree] at hname
        cases hname
      apply hthrown _ _ _ _ hb name value
      rw [Env.find_set_other env varName name _ hne]
      exact hname
    | undefined => rw [hb] at h; cases h

mutual

theorem render_thrown_keeps (subst : String → Env → Outcome) :
    ∀ (s : ControlSection) (env : Env) (e : Exn) (env1 : Env),
      render subst s env = .thrown e env1 →
      ∀ name value, env.find name = some value → env1.find name = some value
  | .Root sections, env, e, env1, h => by
    rw [render] at h
    exact renderSections_thrown_keeps subst sections env "" e env1 h
  | .ForSection varName loopStart loopEnd sections, env, e, env1, h => by
    rw [render] at h
    split at h
    · simp only [RenderResult.thrown.injEq] at h
      obtain ⟨_, h2⟩ := h
      subst h2
      exact fun _ _ hn => hn
    · rename_i hfree
      exact forLoop_thrown_keeps _ varName
        (fun e0 r t e1 hb => renderSections_ok_env subst sections e0 r t e1 hb)
        (fun e0 r x e1 hb => renderSections_thrown_keeps subst sections e0 r x e1 hb)
        _ _ _ _ _ _ (find_none_of_not_isSome env varName hfree) h
  | .ForEachSection varName valuesVarName sections, env, e, env1, h => by
    rw [render] at h
    split at h
    · simp only [RenderResult.thrown.injEq] at h
      obtain ⟨_, h2⟩ := h
      subst h2
      exact fun _ _ hn => hn
    · rename_i hfree
      split at h
      · exact forEachLoop_thrown_keeps _ varName
          (fun e0 r t e1 hb => renderSections_ok_env subst sections e0 r t e1 hb)
          (fun e0 r x e1 hb => renderSections_thrown_keeps subst sections e0 r x e1 hb)
          _ _ _ _ _ (find_none_of_not_isSome env varName hfree) h
      · cases h
      · cases h
  | .Code templateCode, env, e, env1, h => by
    rw [render] at h
    split at h
    · cases h
    · simp only [RenderResult.thrown.injEq] at h
      obtain ⟨_, h2⟩ := h
      subst h2
      exact fun _ _ hn => hn
    · cases h

theorem renderSections_thrown_keeps (subst : String → Env → Outcome) :
    ∀ (sections : List ControlSection) (env : Env) (result : String) (e : Exn) (env1 : Env),
      renderSections subst sections env result = .thrown e env1 →
      ∀ name value, env.find name = some value → env1.find name = some value
  | [], env, result, e, env1, h => by
    rw [renderSections] at h
    cases h
  | s :: rest, env, result, e, env1, h => by
    rw [renderSections] at h
    cases hs : render subst s env with
    | ok t e1 =>
      rw [hs] at h
      have he : e1 = env := render_ok_env subst s env t e1 hs
      subst he
      exact renderSections_thrown_keeps subst rest e1 _ e env1 h
    | thrown e2 e1 =>
      rw [hs] at h
      simp only [RenderResult.thrown.injEq] at h
      obtain ⟨_, h2⟩ := h
      subst h2
      exact render_thrown_keeps subst s env e2 e1 hs
    | undefined => rw [hs] at h; cases h

end

/-! ## Splitting a range -/

theorem forLoop_acc (body : Env → String → RenderResult) (varName : String)
    (hbody : ∀ env result, body env result = (body env "").prepend result) :
    ∀ (n : Nat) (i : Int) (env : Env) (result : String),
      forLoop body varName n i env result =
        (forLoop body varName n i env "").prepend result := by
  intro n
  induction n with
  | zero =>
    intro i env result
    simp [forLoop, RenderResult.prepend]
  | succ n ih =>
    intro i env result
    rw [forLoop, forLoop, hbody (env.set varName (.IntValue i)) result]
    cases hb : body (env.set varName (.IntValue i)) "" with
    | ok t e1 =>
      show forLoop body varName n (i + 1) (e1.erase varName) (result ++ t) =
        (forLoop body varName n (i + 1) (e1.erase varName) t).prepend result
      rw [ih (i + 1) (e1.erase varName) (result ++ t), ih (i + 1) (e1.erase varName) t,
        prepend_prepend]
    | thrown e e1 => simp [RenderResult.prepend]
    | undefined => simp [RenderResult.prepend]

theorem forLoop_split (body : Env → String → RenderResult) (varName : String) (m : Nat) :
    ∀ (n : Nat) (i : Int) (env : Env) (result : String),
      forLoop body varName (n + m) i env result =
        match forLoop body varName n i env result with
        | .ok result1 env1 => forLoop body varName m (i + (n : Int)) env1 result1
        | .thrown e env1 => .thrown e env1
        | .undefined => .undefined := by
  intro n
  induction n with
  | zero =>
    intro i env result
    simp [forLoop]
  | succ n ih =>
    intro i env result
    have hc : i + ((n + 1 : Nat) : Int) = i + 1 + (n : Int) := by push_cast; ring
    rw [Nat.succ_add_eq_add_succ, Nat.add_succ, forLoop, forLoop, hc]
    cases hb : body (env.set varName (.IntValue i)) result with
    | ok t e1 => exact ih (i + 1) (e1.erase varName) t
    | thrown e e1 => rfl
    | undefined => rfl

/-! ## The claims -/

/-- C1: a `ForSection` whose variable is not bound and whose children all render successfully
in every iteration returns, for `i = loopStart, ..., loopEnd - 1` in ascending order, the
concatenation in child order of the children's renders in the map extended with
`varName -> IntValue( i )`, and leaves the map as it was. -/
theorem forSection_render_concat (subst : String → Env → Outcome) (varName : String)
    (loopStart loopEnd : Int) (sections : List ControlSection) (env : Env)
    (hfree : env.find varName = none)
    (hok : ∀ i : Int, loopStart ≤ i → i < loopEnd → ∀ c ∈ sections,
      (render subst c (env.set varName (.IntValue i))).succeeds = true) :
    render subst (.ForSection varName loopStart loopEnd sections) env =
      .ok (String.join ((intRange loopStart loopEnd).map fun i =>
        String.join (sections.map fun c =>
          (render subst c (env.set varName (.IntValue i))).text))) env := by
  rw [render]
  simp only [hfree, Option.isSome_none, Bool.false_eq_true, if_false]
  have h := forLoop_concat (fun env1 result => renderSections subst sections env1 result)
    varName
    (fun i => String.join (sections.map fun c =>
      (render subst c (env.set varName (.IntValue i))).text))
    (loopEnd - loopStart).toNat loopStart env "" hfree
    (by
      intro k hk r
      obtain ⟨h1, h2⟩ := mem_intRange loopStart loopEnd k hk
      exact renderSections_concat subst _ sections r (hok _ h1 h2))
  rw [h]
  simp [intRange, List.map_map, Function.comp_def]

/-- C1, at `range(0,3)` with the body `{{i}}`: the render is "012". -/
theorem forSection_render_concat_witness :
    render (doSubstitutions fun _ => "") (.ForSection "i" 0 3 [.Code "{{i}}"]) [] =
      .ok "012" [] :=
  (forSection_render_concat (doSubstitutions fun _ => "") "i" 0 3 [.Code "{{i}}"] []
    (by decide)
    (by
      intro i h0 h3 c hc
      rw [List.mem_singleton] at hc
      subst hc
      interval_cases i <;> decide)).trans (by decide)

/-- C2: a `ForEachSection` whose variable is not bound, whose `valuesVarName` is bound to a
`VectorStringValue` and whose children all render successfully for every element returns,
for the elements in sequence order, the concatenation in child order of the children's
renders in the map extended with `varName -> StringValue( element )`, and leaves the map as
it was. -/
theorem forEachSection_render_concat (subst : String → Env → Outcome)
    (varName valuesVarName : String) (sections : List ControlSection) (env : Env)
    (values : List String)
    (hfree : env.find varName = none)
    (hvalues : env.find valuesVarName = some (.VectorStringValue values))
    (hok : ∀ e ∈ values, ∀ c ∈ sections,
      (render subst c (env.set varName (.StringValue e))).succeeds = true) :
    render subst (.ForEachSection varName valuesVarName sections) env =
      .ok (String.join (values.map fun e =>
        String.join (sections.map fun c =>
          (render subst c (env.set varName (.StringValue e))).text))) env := by
  rw [render]
  simp only [hfree, Option.isSome_none, Bool.false_eq_true, if_false, hvalues]
  have h := forEachLoop_concat (fun env1 result => renderSections subst sections env1 result)
    varName
    (fun e => String.join (sections.map fun c =>
      (render subst c (env.set varName (.StringValue e))).text))
    values env "" hfree
    (by
      intro e he r
      exact renderSections_concat subst _ sections r (hok e he))
  rw [h]
  simp

/-- C2, at the sequence `["a","b"]` with the body `<{{x}}>`: the render is "<a><b>". -/
theorem forEachSection_render_concat_witness :
    render (doSubstitutions fun _ => "") (.ForEachSection "x" "xs" [.Code "<{{x}}>"])
        [("xs", .VectorStringValue ["a", "b"])] =
      .ok "<a><b>" [("xs", .VectorStringValue ["a", "b"])] :=
  (forEachSection_render_concat (doSubstitutions fun _ => "") "x" "xs" [.Code "<{{x}}>"]
    [("xs", .VectorStringValue ["a", "b"])] ["a", "b"]
    (by decide) (by decide) (by decide)).trans (by decide)

/-- C3: a `ForSection` and a `ForEachSection` whose own variable is already bound throw
`render_error( "variable " + varName + " already exists in this context" )`, whatever their
children and whatever the substitution would do, and leave the map exactly as it was. -/
theorem loop_bound_var_throws (subst : String → Env → Outcome) (varName valuesVarName : String)
    (loopStart loopEnd : Int) (sections : List ControlSection) (env : Env)
    (hbound : (env.find varName).isSome = true) :
    render subst (.ForSection varName loopStart loopEnd sections) env =
        .thrown (.render_error ("variable " ++ varName ++ " already exists in this context"))
          env ∧
      render subst (.ForEachSection varName valuesVarName sections) env =
        .thrown (.render_error ("variable " ++ varName ++ " already exists in this context"))
          env := by
  constructor
  · rw [render]; simp [hbound]
  · rw [render]; simp [hbound]

/-- C3, at the map binding `i` to 7 with children that would themselves fail. -/
theorem loop_bound_var_throws_witness :
    render (fun _ _ => .undefined) (.ForSection "i" 0 3 [.Code "{{i}}"])
        [("i", .IntValue 7)] =
        .thrown (.render_error "variable i already exists in this context")
          [("i", .IntValue 7)] ∧
      render (fun _ _ => .undefined) (.ForEachSection "i" "xs" [.Code "{{i}}"])
        [("i", .IntValue 7)] =
        .thrown (.render_error "variable i already exists in this context")
          [("i", .IntValue 7)] :=
  loop_bound_var_throws (fun _ _ => .undefined) "i" "xs" 0 3 [.Code "{{i}}"]
    [("i", .IntValue 7)] (by decide)

/-- C4: an outer `ForSection` over a non-empty range with a `ForSection` or `ForEachSection`
child that reuses its variable, the children before it rendering successfully, throws
`render_error( "variable " + varName + " already exists in this context" )` in every map:
at once when the variable is already bound, otherwise from the inner loop in the first
iteration, and the map is then left with the variable bound to `loopStart`. -/
theorem nested_same_var_throws (subst : String → Env → Outcome) (varName : String)
    (loopStart loopEnd : Int) (pre post : List ControlSection) (inner : ControlSection)
    (env : Env)
    (hlt : loopStart < loopEnd)
    (hinner : inner.loopVarName = some varName)
    (hpre : env.find varName = none → ∀ c ∈ pre,
      (render subst c (env.set varName (.IntValue loopStart))).succeeds = true) :
    render subst (.ForSection varName loopStart loopEnd (pre ++ inner :: post)) env =
      .thrown (.render_error ("variable " ++ varName ++ " already exists in this context"))
        (if (env.find varName).isSome then env
          else env.set varName (.IntValue loopStart)) := by
  rw [render]
  by_cases hb : (env.find varName).isSome = true
  · simp [hb]
  · have hfree := find_none_of_not_isSome env varName hb
    obtain ⟨m, hm⟩ : ∃ m, (loopEnd - loopStart).toNat = m + 1 :=
      ⟨(loopEnd - loopStart).toNat - 1, by omega⟩
    have hin := loopVar_bound_throws subst inner varName
      (env.set varName (.IntValue loopStart)) hinner
      (by rw [Env.find_set_self]; rfl)
    have hbody := renderSections_prefix_thrown subst
      (env.set varName (.IntValue loopStart)) inner post _ _ hin pre "" (hpre hfree)
    simp only [hb, hm, forLoop, hbody]
    simp

/-- C4, at an outer `for i in range(0,2)` whose body is `for i in range(0,2)`. -/
theorem nested_same_var_throws_witness :
    render (doSubstitutions fun _ => "")
        (.ForSection "i" 0 2 ([] ++ .ForSection "i" 0 2 [.Code "{{i}}"] :: [])) [] =
      .thrown (.render_error ("variable " ++ "i" ++ " already exists in this context"))
        (if (Env.find [] "i").isSome then [] else Env.set [] "i" (.IntValue 0)) :=
  nested_same_var_throws (doSubstitutions fun _ => "") "i" 0 2 [] []
    (.ForSection "i" 0 2 [.Code "{{i}}"]) [] (by decide) rfl
    (by intro _ c hc; cases hc)

/-- C5: when `render` of a section tree returns, the map it leaves is the map it was given;
in particular the variable of a `ForSection` or `ForEachSection` that completed is not
bound afterwards. -/
theorem render_ok_restores_env (subst : String → Env → Outcome) (s : ControlSection)
    (env : Env) (text : String) (env1 : Env)
    (h : render subst s env = .ok text env1) :
    env1 = env ∧ ∀ varName, s.loopVarName = some varName → env1.find varName = none := by
  have he : env1 = env := render_ok_env subst s env text env1 h
  refine ⟨he, ?_⟩
  intro varName hv
  by_cases hb : (env.find varName).isSome = true
  · rw [loopVar_bound_throws subst s varName env hv hb] at h
    cases h
  · rw [he]
    exact find_none_of_not_isSome env varName hb

/-- C5, at `for i in range(0,2)` with the body `for x in xs` over `{{i}}{{x}}`: the map is
unchanged and `i` is not bound afterwards. -/
theorem render_ok_restores_env_witness :
    [("xs", Value.VectorStringValue ["a", "b"])] = [("xs", Value.VectorStringValue ["a", "b"])] ∧
      Env.find [("xs", Value.VectorStringValue ["a", "b"])] "i" = none :=
  have h := render_ok_restores_env (doSubstitutions fun _ => "")
    (.ForSection "i" 0 2 [.ForEachSection "x" "xs" [.Code "{{i}}{{x}}"]])
    [("xs", .VectorStringValue ["a", "b"])] "0a0b1a1b" [("xs", .VectorStringValue ["a", "b"])]
    (by decide)
  ⟨h.1, h.2 "i" rfl⟩

/-- C6 fails as stated: with `loopStart = loopEnd` and the variable already bound, the check
before the loop throws. -/
theorem forSection_empty_range_bound_throws :
    (0 : Int) ≥ 0 ∧
      render (doSubstitutions fun _ => "") (.ForSection "i" 0 0 []) [("i", .IntValue 5)] =
        .thrown (.render_error "variable i already exists in this context")
          [("i", .IntValue 5)] := by
  decide

/-- C6, amended: a `ForSection` with `loopStart >= loopEnd` whose variable is not bound
returns the empty string, whatever its children, and leaves the map as it was. -/
theorem forSection_empty_range (subst : String → Env → Outcome) (varName : String)
    (loopStart loopEnd : Int) (sections : List ControlSection) (env : Env)
    (hfree : env.find varName = none) (hempty : loopStart ≥ loopEnd) :
    render subst (.ForSection varName loopStart loopEnd sections) env = .ok "" env := by
  rw [render]
  have hn : (loopEnd - loopStart).toNat = 0 := by omega
  simp [hfree, hn, forLoop]

/-- C6, amended, at `range(5,2)` with a body that would fail. -/
theorem forSection_empty_range_witness :
    render (fun _ _ => .undefined) (.ForSection "i" 5 2 [.Code "{{nothing}}"])
        [("n", .IntValue 1)] = .ok "" [("n", .IntValue 1)] :=
  forSection_empty_range (fun _ _ => .undefined) "i" 5 2 [.Code "{{nothing}}"]
    [("n", .IntValue 1)] (by decide) (by decide)

/-- C7: a `Root` over two sibling `ForSection`s with the same variable, not bound in the map,
each of which renders successfully on its own, returns the render of the first followed by
the render of the second, both in the original map, and leaves the map as it was. -/
theorem root_sibling_forSections (subst : String → Env → Outcome) (varName : String)
    (loopStartA loopEndA loopStartB loopEndB : Int) (sectionsA sectionsB : List ControlSection)
    (env : Env)
    (_hfree : env.find varName = none)
    (hA : (render subst (.ForSection varName loopStartA loopEndA sectionsA) env).succeeds = true)
    (hB : (render subst (.ForSection varName loopStartB loopEndB sectionsB) env).succeeds = true) :
    render subst (.Root [.ForSection varName loopStartA loopEndA sectionsA,
        .ForSection varName loopStartB loopEndB sectionsB]) env =
      .ok ((render subst (.ForSection varName loopStartA loopEndA sectionsA) env).text ++
        (render subst (.ForSection varName loopStartB loopEndB sectionsB) env).text) env := by
  rw [render, renderSections_concat subst env _ ""
    (by
      intro c hc
      simp only [List.mem_cons, List.mem_singleton, List.not_mem_nil, or_false] at hc
      rcases hc with hc | hc <;> subst hc <;> assumption)]
  simp [join_cons, join_nil]

/-- C7, at `for i in range(0,2)` followed by `for i in range(5,7)`, both with body `{{i}}`:
the render is "0156". -/
theorem root_sibling_forSections_witness :
    render (doSubstitutions fun _ => "")
        (.Root [.ForSection "i" 0 2 [.Code "{{i}}"], .ForSection "i" 5 7 [.Code "{{i}}"]]) [] =
      .ok "0156" [] :=
  (root_sibling_forSections (doSubstitutions fun _ => "") "i" 0 2 5 7 [.Code "{{i}}"]
    [.Code "{{i}}"] [] (by decide) (by decide) (by decide)).trans (by decide)

/-- C8 does not hold of the code: a `ForEachSection` whose variable is not bound and whose
`valuesVarName` is unbound or bound to anything but a `VectorStringValue` throws nothing; the
`dynamic_cast` yields a null pointer and `->values` reads through it. -/
theorem forEachSection_no_sequence_undefined (subst : String → Env → Outcome)
    (varName valuesVarName : String) (sections : List ControlSection) (env : Env)
    (hfree : env.find varName = none)
    (hkind : ∀ values, env.find valuesVarName ≠ some (.VectorStringValue values)) :
    render subst (.ForEachSection varName valuesVarName sections) env = .undefined := by
  rw [render]
  simp only [hfree, Option.isSome_none, Bool.false_eq_true, if_false]
  split
  · rename_i values hv
    exact absurd hv (hkind values)
  · rfl
  · rfl

/-- C8, at `for x in xs` with `xs` bound to the integer 3. -/
theorem forEachSection_no_sequence_undefined_witness :
    render (doSubstitutions fun _ => "") (.ForEachSection "x" "xs" []) [("xs", .IntValue 3)] =
      .undefined :=
  forEachSection_no_sequence_undefined (doSubstitutions fun _ => "") "x" "xs" []
    [("xs", .IntValue 3)] (by decide)
    (by intro values h; simp [Env.find] at h)

/-- C9 fails as stated: with `valuesVarName` bound to an empty sequence and the loop variable
already bound, the check before the loop throws. -/
theorem forEachSection_empty_bound_throws :
    Env.find [("xs", Value.VectorStringValue []), ("x", Value.StringValue "a")] "xs" =
        some (.VectorStringValue []) ∧
      render (doSubstitutions fun _ => "") (.ForEachSection "x" "xs" [])
          [("xs", .VectorStringValue []), ("x", .StringValue "a")] =
        .thrown (.render_error "variable x already exists in this context")
          [("xs", .VectorStringValue []), ("x", .StringValue "a")] := by
  decide

/-- C9, amended: a `ForEachSection` whose variable is not bound and whose `valuesVarName` is
bound to an empty `VectorStringValue` returns the empty string, whatever its children, and
leaves the map as it was. -/
theorem forEachSection_empty_sequence (subst : String → Env → Outcome)
    (varName valuesVarName : String) (sections : List ControlSection) (env : Env)
    (hfree : env.find varName = none)
    (hvalues : env.find valuesVarName = some (.VectorStringValue [])) :
    render subst (.ForEachSection varName valuesVarName sections) env = .ok "" env := by
  rw [render]
  simp [hfree, hvalues, forEachLoop]

/-- C9, amended, at `for x in xs` with `xs` empty and a body that would fail. -/
theorem forEachSection_empty_sequence_witness :
    render (fun _ _ => .undefined) (.ForEachSection "x" "xs" [.Code "{{nothing}}"])
        [("xs", .VectorStringValue [])] = .ok "" [("xs", .VectorStringValue [])] :=
  forEachSection_empty_sequence (fun _ _ => .undefined) "x" "xs" [.Code "{{nothing}}"]
    [("xs", .VectorStringValue [])] (by decide) (by decide)

/-- C10: `VectorStringValue::render` throws for every sequence and so returns no text, and
`StringValue::render` returns exactly the string it holds. -/
theorem value_render_sequence_and_text (toStringFloat : CFloat → String) :
    (∀ values : List String,
      Value.render toStringFloat (.VectorStringValue values) =
        .thrown (.runtime_error "Not implemented")) ∧
      ∀ value : String, Value.render toStringFloat (.StringValue value) = .ok value :=
  ⟨fun _ => rfl, fun _ => rfl⟩

/-- C11: a `Root` all of whose children render successfully returns the concatenation of
their renders in list order and leaves the map as it was; a `Root` without children returns
the empty string; and the render of `Root( xs ++ ys )` is the render of `Root( xs )` followed
by the render of `Root( ys )`. -/
theorem root_render_concat (subst : String → Env → Outcome) (xs ys : List ControlSection)
    (env : Env)
    (hok : ∀ c ∈ xs ++ ys, (render subst c env).succeeds = true) :
    render subst (.Root (xs ++ ys)) env =
        .ok (String.join ((xs ++ ys).map fun c => (render subst c env).text)) env ∧
      render subst (.Root []) env = .ok "" env ∧
      render subst (.Root (xs ++ ys)) env =
        .ok ((render subst (.Root xs) env).text ++ (render subst (.Root ys) env).text)
          env := by
  have hxs : ∀ c ∈ xs, (render subst c env).succeeds = true :=
    fun c hc => hok c (List.mem_append_left ys hc)
  have hys : ∀ c ∈ ys, (render subst c env).succeeds = true :=
    fun c hc => hok c (List.mem_append_right xs hc)
  have hall := renderSections_concat subst env (xs ++ ys) "" hok
  have hx := renderSections_concat subst env xs "" hxs
  have hy := renderSections_concat subst env ys "" hys
  refine ⟨?_, ?_, ?_⟩
  · rw [render, hall]; simp
  · rw [render, renderSections]
  · rw [render, render, render, hall, hx, hy]
    simp [RenderResult.text, join_append]

/-- C11, at the children `ab`, `for i in range(0,2)` over `{{i}}`, and `c`: the render is
"ab01c". -/
theorem root_render_concat_witness :
    render (doSubstitutions fun _ => "")
        (.Root ([.Code "ab", .ForSection "i" 0 2 [.Code "{{i}}"]] ++ [.Code "c"])) [] =
      .ok "ab01c" [] :=
  (root_render_concat (doSubstitutions fun _ => "")
    [.Code "ab", .ForSection "i" 0 2 [.Code "{{i}}"]] [.Code "c"] []
    (by decide)).1.trans (by decide)

/-- C12: for a source text without a control marker and without a substitution marker,
`Template::render` returns the text unchanged in every map, and so does a `Code` node that
holds the text. -/
theorem template_render_identity (eatControl : String → Except Exn ControlSection)
    (toStringFloat : CFloat → String) (t : Template)
    (hcontrol : hasControlMarker t.sourceCode = false)
    (hmarker : hasSubstitutionMarker t.sourceCode = false) :
    t.render eatControl toStringFloat = .ok t.sourceCode t.valueByName ∧
      render (doSubstitutions toStringFloat) (.Code t.sourceCode) t.valueByName =
        .ok t.sourceCode t.valueByName := by
  have hcode : render (doSubstitutions toStringFloat) (.Code t.sourceCode) t.valueByName =
      .ok t.sourceCode t.valueByName := by
    rw [render, doSubstitutions,
      substScan_no_marker toStringFloat t.valueByName t.sourceCode.data [] hmarker]
    simp
  refine ⟨?_, hcode⟩
  rw [Template.render]
  simp only [hcontrol, Bool.false_eq_true, if_false]
  rw [render, renderSections, hcode]
  simp [renderSections]

/-- C12, at the text `a { b }} c` in a map that binds `b`. -/
theorem template_render_identity_witness :
    Template.render (fun _ => .error (.render_error "control block")) (fun _ => "")
        ⟨"a \x7b b \x7d\x7d c", [("b", .IntValue 1)]⟩ =
        .ok "a \x7b b \x7d\x7d c" [("b", .IntValue 1)] ∧
      render (doSubstitutions fun _ => "") (.Code "a \x7b b \x7d\x7d c") [("b", .IntValue 1)] =
        .ok "a \x7b b \x7d\x7d c" [("b", .IntValue 1)] :=
  template_render_identity (fun _ => .error (.render_error "control block")) (fun _ => "")
    ⟨"a \x7b b \x7d\x7d c", [("b", .IntValue 1)]⟩ (by decide) (by decide)

/-- C13: when `c` is the first child in list order whose render fails in the map `env`, the
enclosing render ends exactly as the render of `c` did, whatever children follow `c`: for a
`Root` rendered in `env`, and for a `ForSection` or `ForEachSection` whose earlier
iterations all succeeded and for which `env` is the map of the first failing iteration. -/
theorem first_failure_propagates (subst : String → Env → Outcome)
    (pre post : List ControlSection) (c : ControlSection) (env : Env)
    (hpre : ∀ p ∈ pre, (render subst p env).succeeds = true)
    (hc : (render subst c env).succeeds = false) :
    render subst (.Root (pre ++ c :: post)) env = render subst c env ∧
      (∀ (varName : String) (loopStart loopEnd i : Int) (env0 : Env),
        env0.find varName = none → env = env0.set varName (.IntValue i) →
        loopStart ≤ i → i < loopEnd →
        (∀ k : Int, loopStart ≤ k → k < i → ∀ s ∈ pre ++ c :: post,
          (render subst s (env0.set varName (.IntValue k))).succeeds = true) →
        render subst (.ForSection varName loopStart loopEnd (pre ++ c :: post)) env0 =
          render subst c env) ∧
      (∀ (varName valuesVarName : String) (earlier later : List String) (thisValue : String)
        (env0 : Env),
        env0.find varName = none → env = env0.set varName (.StringValue thisValue) →
        env0.find valuesVarName = some (.VectorStringValue (earlier ++ thisValue :: later)) →
        (∀ v ∈ earlier, ∀ s ∈ pre ++ c :: post,
          (render subst s (env0.set varName (.StringValue v))).succeeds = true) →
        render subst (.ForEachSection varName valuesVarName (pre ++ c :: post)) env0 =
          render subst c env) := by
  refine ⟨?_, ?_, ?_⟩
  · rw [render]
    exact renderSections_first_failure subst env c post hc pre "" hpre
  · intro varName loopStart loopEnd i env0 hfree henv hlo hhi hearlier
    subst henv
    exact forSection_first_failure subst varName loopStart loopEnd i pre post c env0 hfree
      hlo hhi hearlier hpre hc
  · intro varName valuesVarName earlier later thisValue env0 hfree henv hvalues hearlier
    subst henv
    exact forEachSection_first_failure subst varName valuesVarName earlier later thisValue
      pre post c env0 hfree hvalues hearlier hpre hc

/-- C13, at the children `{{i}}`, `{{missing}}`, `{{xs}}` in the map of iteration `i = 0`:
under a `Root` and under `for i in range(0,3)` the error is that of `{{missing}}`, not that
of `{{xs}}`, and the text of `{{i}}` is not returned. -/
theorem first_failure_propagates_witness :
    render (doSubstitutions fun _ => "")
        (.Root ([.Code "{{i}}"] ++ .Code "{{missing}}" :: [.Code "{{xs}}"]))
        [("xs", .VectorStringValue []), ("i", .IntValue 0)] =
        .thrown (.render_error "undefined variable missing")
          [("xs", .VectorStringValue []), ("i", .IntValue 0)] ∧
      render (doSubstitutions fun _ => "")
        (.ForSection "i" 0 3 ([.Code "{{i}}"] ++ .Code "{{missing}}" :: [.Code "{{xs}}"]))
        [("xs", .VectorStringValue [])] =
        .thrown (.render_error "undefined variable missing")
          [("xs", .VectorStringValue []), ("i", .IntValue 0)] :=
  have h := first_failure_propagates (doSubstitutions fun _ => "") [.Code "{{i}}"]
    [.Code "{{xs}}"] (.Code "{{missing}}")
    [("xs", .VectorStringValue []), ("i", .IntValue 0)] (by decide) (by decide)
  ⟨h.1.trans (by decide),
    (h.2.1 "i" 0 3 0 [("xs", .VectorStringValue [])] (by decide) (by decide) (by decide)
      (by decide) (by intro k h1 h2; omega)).trans (by decide)⟩

/-- C14: when the variable of a `ForSection` is not bound and a child throws in iteration
`i` (everything rendered before it having succeeded), the `ForSection` throws the same
exception and the map it leaves still binds `varName` to `IntValue( i )`; rendering the same
`ForSection` against that map throws
`render_error( "variable " + varName + " already exists in this context" )`. -/
theorem forSection_failure_keeps_binding (subst : String → Env → Outcome) (varName : String)
    (loopStart loopEnd i : Int) (pre post : List ControlSection) (c : ControlSection)
    (env : Env) (e : Exn) (env1 : Env)
    (hfree : env.find varName = none) (hlo : loopStart ≤ i) (hhi : i < loopEnd)
    (hearlier : ∀ k : Int, loopStart ≤ k → k < i → ∀ s ∈ pre ++ c :: post,
      (render subst s (env.set varName (.IntValue k))).succeeds = true)
    (hpre : ∀ p ∈ pre, (render subst p (env.set varName (.IntValue i))).succeeds = true)
    (hc : render subst c (env.set varName (.IntValue i)) = .thrown e env1) :
    render subst (.ForSection varName loopStart loopEnd (pre ++ c :: post)) env =
        .thrown e env1 ∧
      env1.find varName = some (.IntValue i) ∧
      render subst (.ForSection varName loopStart loopEnd (pre ++ c :: post)) env1 =
        .thrown (.render_error ("variable " ++ varName ++ " already exists in this context"))
          env1 := by
  have hbound : env1.find varName = some (.IntValue i) :=
    render_thrown_keeps subst c _ e env1 hc varName _ (Env.find_set_self env varName _)
  refine ⟨?_, hbound, ?_⟩
  · rw [← hc]
    exact forSection_first_failure subst varName loopStart loopEnd i pre post c env hfree
      hlo hhi hearlier hpre (by rw [hc]; rfl)
  · exact loopVar_bound_throws subst _ varName env1 rfl (by rw [hbound]; rfl)

/-- C14, at `for i in range(3,5)` with the body `{{i}}` then `for x in range(0,2)` over
`{{missing}}`: the failed render leaves `i` bound to 3 (and `x` to 0), and a second render
against that map throws the scope error. -/
theorem forSection_failure_keeps_binding_witness :
    render (doSubstitutions fun _ => "")
        (.ForSection "i" 3 5
          ([.Code "{{i}}"] ++ .ForSection "x" 0 2 [.Code "{{missing}}"] :: [])) [] =
        .thrown (.render_error "undefined variable missing")
          [("i", .IntValue 3), ("x", .IntValue 0)] ∧
      Env.find [("i", Value.IntValue 3), ("x", Value.IntValue 0)] "i" = some (.IntValue 3) ∧
      render (doSubstitutions fun _ => "")
        (.ForSection "i" 3 5
          ([.Code "{{i}}"] ++ .ForSection "x" 0 2 [.Code "{{missing}}"] :: []))
        [("i", .IntValue 3), ("x", .IntValue 0)] =
        .thrown (.render_error ("variable " ++ "i" ++ " already exists in this context"))
          [("i", .IntValue 3), ("x", .IntValue 0)] :=
  forSection_failure_keeps_binding (doSubstitutions fun _ => "") "i" 3 5 3 [.Code "{{i}}"] []
    (.ForSection "x" 0 2 [.Code "{{missing}}"]) []
    (.render_error "undefined variable missing") [("i", .IntValue 3), ("x", .IntValue 0)]
    (by decide) (by decide) (by decide) (by intro k h1 h2; omega) (by decide) (by decide)

/-- C15: for `a <= b <= c` and a map in which `varName` is not bound and
`ForSection( varName, a, c, children )` renders successfully, the loops over `[a, b)` and
`[b, c)` render successfully in the same map and the text of the loop over `[a, c)` is the
text of the first followed by the text of the second. -/
theorem forSection_range_split (subst : String → Env → Outcome) (varName : String)
    (a b c : Int) (sections : List ControlSection) (env : Env)
    (hab : a ≤ b) (hbc : b ≤ c)
    (hfree : env.find varName = none)
    (hok : (render subst (.ForSection varName a c sections) env).succeeds = true) :
    (render subst (.ForSection varName a b sections) env).succeeds = true ∧
      (render subst (.ForSection varName b c sections) env).succeeds = true ∧
      (render subst (.ForSection varName a c sections) env).text =
        (render subst (.ForSection varName a b sections) env).text ++
          (render subst (.ForSection varName b c sections) env).text := by
  have hn : (c - a).toNat = (b - a).toNat + (c - b).toNat := by omega
  have hb : a + (((b - a).toNat : Nat) : Int) = b := by omega
  have hrender : ∀ x y : Int, render subst (.ForSection varName x y sections) env =
      forLoop (fun env1 result => renderSections subst sections env1 result) varName
        (y - x).toNat x env "" := by
    intro x y
    rw [render]
    simp only [hfree, Option.isSome_none, Bool.false_eq_true, if_false]
  have hsplit := forLoop_split (fun env1 result => renderSections subst sections env1 result)
    varName (c - b).toNat (b - a).toNat a env ""
  rw [hb] at hsplit
  rw [hrender, hn, hsplit] at hok
  rw [hrender a c, hrender a b, hrender b c, hn, hsplit]
  cases h1 : forLoop (fun env1 result => renderSections subst sections env1 result) varName
      (b - a).toNat a env "" with
  | ok r1 e1 =>
    have he : e1 = env := forLoop_ok_env _ varName
      (fun e0 r t e2 hb => renderSections_ok_env subst sections e0 r t e2 hb)
      _ _ _ _ _ _ hfree h1
    subst he
    have hacc := forLoop_acc (fun env1 result => renderSections subst sections env1 result)
      varName (fun e0 r => renderSections_acc subst sections e0 r) (c - b).toNat b e1 r1
    rw [h1] at hok
    simp only [] at hok
    rw [hacc] at hok
    simp only []
    rw [hacc]
    cases h2 : forLoop (fun env1 result => renderSections subst sections env1 result) varName
        (c - b).toNat b e1 "" with
    | ok r2 e2 => exact ⟨rfl, rfl, rfl⟩
    | thrown x e2 => rw [h2] at hok; cases hok
    | undefined => rw [h2] at hok; cases hok
  | thrown x e1 => rw [h1] at hok; cases hok
  | undefined => rw [h1] at hok; cases hok

/-- C15, at `for i in range(0,4)` with the body `{{i}}`, split at 1: "0123" is "0" followed
by "123". -/
theorem forSection_range_split_witness :
    (render (doSubstitutions fun _ => "") (.ForSection "i" 0 1 [.Code "{{i}}"])
        []).succeeds = true ∧
      (render (doSubstitutions fun _ => "") (.ForSection "i" 1 4 [.Code "{{i}}"])
        []).succeeds = true ∧
      (render (doSubstitutions fun _ => "") (.ForSection "i" 0 4 [.Code "{{i}}"]) []).text =
        (render (doSubstitutions fun _ => "") (.ForSection "i" 0 1 [.Code "{{i}}"]) []).text ++
          (render (doSubstitutions fun _ => "") (.ForSection "i" 1 4 [.Code "{{i}}"])
            []).text :=
  forSection_range_split (doSubstitutions fun _ => "") "i" 0 1 4 [.Code "{{i}}"] []
    (by decide) (by decide) (by decide) (by decide)

end SpeedTemplates
